import Mathlib

/-!
Verification of the resilient web-scraping component of `Stockk_ui.py`
(class `PTTScraper`): the retrying HTTP fetcher `_make_request`, the
listing extractor `get_ptt_stock_posts`, the per-post content extractor
`_get_post_content`, and the text sanitizer `_clean_text`.

The embedding is shallow: HTML documents are modelled as a tree of
elements and text nodes carrying the attributes the scraper inspects
(tag name, class list, `id`, `href`); BeautifulSoup's `find` / `find_all`
become document-order (preorder) traversals; network I/O becomes an
explicit oracle (`Option Html` for a fetched-and-parsed page,
`Nat → AttemptResult` for the outcome of each HTTP attempt); `random.uniform(1,3)`
becomes an explicit jitter oracle; `time.sleep` and `session.get` become
events in an explicit trace.  Python's `try/except` blocks around code that
cannot fail in the model are represented by explicit boolean exception
oracles where a claim depends on them.
-/

/- ===================== Text sanitizer (`_clean_text`) ===================== -/

/-- Models Python `re` whitespace class `\s` (and the character set of
`str.strip()`) on the ASCII range: space, tab, LF, CR, vertical tab, form
feed.  Non-ASCII Unicode whitespace is outside the modelled alphabet. -/
def isPySpace (c : Char) : Bool :=
  c = ' ' || c = '\t' || c = '\n' || c = '\r' || c = '\x0b' || c = '\x0c'

/-- Models the CJK-range alternative `一-鿿` of the character class
in `_clean_text`. -/
def inCJKRange (c : Char) : Bool :=
  0x4e00 ≤ c.toNat && c.toNat ≤ 0x9fff

/-- Models Python `re` word class `\w` restricted to the alphabet exercised
here: ASCII alphanumerics, underscore, and the CJK block (which `\w` also
matches).  Letters of further scripts are outside the modelled alphabet. -/
def isPyWord (c : Char) : Bool :=
  c.isAlphanum || c = '_' || inCJKRange c

/-- The literal punctuation alternatives `.,!?，。！？` of the character
class in `_clean_text`. -/
def allowedPunct (c : Char) : Bool :=
  c = '.' || c = ',' || c = '!' || c = '?' || c = '，' || c = '。' || c = '！' || c = '？'

/-- A character survives `re.sub(r'[^\w\s一-鿿.,!?，。！？]', '', ·)`
iff it matches one of the class's alternatives. -/
def allowedChar (c : Char) : Bool :=
  isPyWord c || isPySpace c || inCJKRange c || allowedPunct c

/-- Models `re.sub(r'\s+', ' ', ·)`: every maximal run of whitespace becomes
one ASCII space.  The flag records whether the previous character was
whitespace (i.e. whether we are inside a run whose space was already
emitted). -/
def collapseAux : Bool → List Char → List Char
  | _, [] => []
  | prevWS, c :: cs =>
    if isPySpace c then
      if prevWS then collapseAux true cs
      else ' ' :: collapseAux true cs
    else c :: collapseAux false cs

/-- `re.sub(r'\s+', ' ', ·)` on a character list. -/
def collapseWS (l : List Char) : List Char := collapseAux false l

/-- Drop leading whitespace (the left half of Python `str.strip()`). -/
def dropStartWS : List Char → List Char
  | [] => []
  | c :: cs => if isPySpace c then dropStartWS cs else c :: cs

/-- Drop trailing whitespace (the right half of Python `str.strip()`). -/
def dropEndWS : List Char → List Char
  | [] => []
  | c :: cs =>
    match dropEndWS cs with
    | [] => if isPySpace c then [] else [c]
    | d :: ds => c :: d :: ds

/-- Python `str.strip()` on a character list. -/
def pyStrip (l : List Char) : List Char := dropEndWS (dropStartWS l)

/-- `PTTScraper._clean_text` on a character list: collapse whitespace runs,
remove characters outside the allow-list, then strip. -/
def cleanTextL (l : List Char) : List Char :=
  pyStrip ((collapseWS l).filter allowedChar)

/-- `PTTScraper._clean_text`:
`text = re.sub(r'\s+', ' ', text)`;
`text = re.sub(r'[^\w\s一-鿿.,!?，。！？]', '', text)`;
`return text.strip()`. -/
def _clean_text (s : String) : String := ⟨cleanTextL s.data⟩

/-- Python `str.strip()` on strings (used on tag text before cleaning). -/
def pyStripString (s : String) : String := ⟨pyStrip s.data⟩

/- ===================== HTML documents and BeautifulSoup ===================== -/

mutual
/-- A parsed HTML node: an element with the attributes the scraper reads
(tag name, `class` list, `id`, `href`) and its children, or a text node.
A whole parsed page is an `elem` acting as BeautifulSoup's document root. -/
inductive Html where
  | elem (tag : String) (classes : List String) (idAttr : Option String)
         (hrefAttr : Option String) (children : NodeList)
  | text (s : String)
/-- Children of an element (a specialised list, so that all recursions over
the tree are structural). -/
inductive NodeList where
  | nil
  | cons (h : Html) (t : NodeList)
end

/-- Build a `NodeList` from a `List`. -/
def NodeList.ofList : List Html → NodeList
  | [] => .nil
  | h :: t => .cons h (NodeList.ofList t)

mutual
/-- All strict descendants of a node in document (preorder) order — the
order in which BeautifulSoup's `find_all` / `find` visit candidates. -/
def Html.descendants : Html → List Html
  | .text _ => []
  | .elem _ _ _ _ ch => NodeList.descendants ch
/-- Descendants contributed by a child list, in document order. -/
def NodeList.descendants : NodeList → List Html
  | .nil => []
  | .cons c cs => c :: Html.descendants c ++ NodeList.descendants cs
end

/-- `tag.find(...)` / attribute access like `title_tag.a`: the first
descendant satisfying the predicate, in document order. -/
def Html.findFirst (p : Html → Bool) (x : Html) : Option Html :=
  ((Html.descendants x).filter p).head?

/-- Matcher for `find`/`find_all` with a tag name, e.g. `find('a')`. -/
def Html.isTag (tg : String) : Html → Bool
  | .elem t _ _ _ _ => t = tg
  | .text _ => false

/-- Matcher for `find('div', class_=cls)`: a `div` whose class list
contains `cls`. -/
def Html.isDivClass (cls : String) : Html → Bool
  | .elem t cs _ _ _ => t = "div" && cs.contains cls
  | .text _ => false

/-- Matcher for `find(id=idv)`. -/
def Html.hasIdAttr (idv : String) : Html → Bool
  | .elem _ _ (some j) _ _ => j = idv
  | .elem _ _ none _ _ => false
  | .text _ => false

/-- The `href` attribute of an element (`tag['href']` raises `KeyError`
when this is `none`). -/
def Html.getHref : Html → Option String
  | .elem _ _ _ r _ => r
  | .text _ => none

mutual
/-- The net effect of
`for element in content_div.find_all(['div', 'span']): element.decompose()`:
every descendant subtree rooted at a `div` or `span` is removed (the node
itself is kept). -/
def Html.stripDivSpan : Html → Html
  | .text s => .text s
  | .elem t c i r ch => .elem t c i r (NodeList.stripDivSpan ch)
/-- Removal of `div`/`span` subtrees from a child list. -/
def NodeList.stripDivSpan : NodeList → NodeList
  | .nil => .nil
  | .cons c cs =>
    match c with
    | .elem t cl ia hr ch =>
      if t = "div" || t = "span" then NodeList.stripDivSpan cs
      else .cons (Html.stripDivSpan (.elem t cl ia hr ch)) (NodeList.stripDivSpan cs)
    | .text s => .cons (.text s) (NodeList.stripDivSpan cs)
end

mutual
/-- BeautifulSoup's `tag.text`: the concatenation of all text-node strings
in the subtree, in document order. -/
def Html.textContent : Html → String
  | .text s => s
  | .elem _ _ _ _ ch => NodeList.textContent ch
/-- Text contributed by a child list. -/
def NodeList.textContent : NodeList → String
  | .nil => ""
  | .cons c cs => Html.textContent c ++ NodeList.textContent cs
end

/- ===================== Resilient fetcher (`_make_request`) ===================== -/

/-- An HTTP response as `_make_request` returns it (the scraper only ever
reads `response.text`). -/
structure Response where
  body : String
deriving DecidableEq

/-- Outcome of one `session.get` + `raise_for_status()` attempt: `ok` when
the request returned without raising, `err` for any
`requests.exceptions.RequestException` (network error, timeout, or an
HTTP error status raised by `raise_for_status`). -/
inductive AttemptResult where
  | ok (resp : Response)
  | err
deriving DecidableEq

/-- Observable side effects of `_make_request`: an HTTP GET of the url
(with its 0-based attempt index) or a `time.sleep` of the given number of
seconds. -/
inductive FetchEvent where
  | get (url : String) (i : Nat)
  | sleep (seconds : ℚ)
deriving DecidableEq

/-- The retry loop of `_make_request`, at attempt index `i` with `n` loop
iterations remaining (so `i + n = max_retries`).  The outcome of attempt
`i` is `outcome i`; `random.uniform(1, 3)` at attempt `i` is `jitter i`.
Returns the result together with the trace of GETs and sleeps.  The guard
`attempt < self.max_retries - 1` is `n ≠ 0` here: a sleep happens after a
failed attempt exactly when further iterations remain. -/
def makeRequestAux (retryDelay : ℚ) (url : String) (outcome : Nat → AttemptResult)
    (jitter : Nat → ℚ) : Nat → Nat → Option Response × List FetchEvent
  | _, 0 => (none, [])
  | i, n + 1 =>
    match outcome i with
    | .ok r => (some r, [.get url i])
    | .err =>
      let rest := makeRequestAux retryDelay url outcome jitter (i + 1) n
      if n = 0 then (rest.1, [.get url i])
      else (rest.1, .get url i :: .sleep (retryDelay + jitter i) :: rest.2)

/-- `PTTScraper._make_request(url)` with `self.max_retries = maxRetries`
and `self.retry_delay = retryDelay`: up to `maxRetries` attempts starting
at index 0. -/
def _make_request (maxRetries : Nat) (retryDelay : ℚ) (url : String)
    (outcome : Nat → AttemptResult) (jitter : Nat → ℚ) :
    Option Response × List FetchEvent :=
  makeRequestAux retryDelay url outcome jitter 0 maxRetries

/-- Number of HTTP GET attempts recorded in a trace. -/
def attemptCount (tr : List FetchEvent) : Nat :=
  tr.countP fun e => match e with | .get _ _ => true | .sleep _ => false

/-- Number of sleeps recorded in a trace. -/
def sleepCount (tr : List FetchEvent) : Nat :=
  tr.countP fun e => match e with | .get _ _ => false | .sleep _ => true

/-- The trace of `k` consecutive failed non-final attempts starting at
index `i`: each GET is followed by a sleep of
`retry_delay + random.uniform(1, 3)` seconds. -/
def sleepyTrace (retryDelay : ℚ) (url : String) (jitter : Nat → ℚ) : Nat → Nat → List FetchEvent
  | _, 0 => []
  | i, k + 1 =>
    .get url i :: .sleep (retryDelay + jitter i) :: sleepyTrace retryDelay url jitter (i + 1) k

/- ===================== Post-list and content extraction ===================== -/

/-- The four summary fields `_extract_post_info` produces. -/
structure PostInfo where
  title : String
  link : String
  author : String
  date : String
deriving DecidableEq

/-- A complete record as returned by `get_ptt_stock_posts` (the `post_info`
dict after `post_info['content']` is set). -/
structure ForumPost where
  title : String
  link : String
  author : String
  date : String
  content : String
deriving DecidableEq

/-- `PTTScraper._extract_post_info(post_div)`.  `none` models the skip
paths: no `div.title`, no nested `a` (`not title_tag.a`), or a missing
`href` attribute (whose `KeyError` the function's own handler turns into
`None`).  The author/date defaults `"N/A"` are also passed through
`_clean_text`, as in the source. -/
def _extract_post_info (postDiv : Html) : Option PostInfo :=
  match Html.findFirst (Html.isDivClass "title") postDiv with
  | none => none
  | some titleTag =>
    match Html.findFirst (Html.isTag "a") titleTag with
    | none => none
    | some anchor =>
      match anchor.getHref with
      | none => none
      | some href =>
        some { title := _clean_text (pyStripString anchor.textContent)
             , link := "https://www.ptt.cc" ++ href
             , author :=
                 match Html.findFirst (Html.isDivClass "author") postDiv with
                 | some t => _clean_text (pyStripString t.textContent)
                 | none => _clean_text "N/A"
             , date :=
                 match Html.findFirst (Html.isDivClass "date") postDiv with
                 | some t => _clean_text (pyStripString t.textContent)
                 | none => _clean_text "N/A" }

/-- `PTTScraper._get_post_content(url)` after the fetch: `fetched` is the
parsed page when `_make_request` succeeded, `none` when it returned `None`;
`exc` is true when the `try` body raises an unexpected exception, which the
handler converts to the fixed error placeholder. -/
def _get_post_content (exc : Bool) (fetched : Option Html) : String :=
  if exc then "獲取文章內容時發生錯誤"
  else
    match fetched with
    | none => "無法獲取文章內容"
    | some doc =>
      match Html.findFirst (Html.hasIdAttr "main-content") doc with
      | none => "無法找到文章內容"
      | some contentDiv =>
        _clean_text (pyStripString (Html.textContent (Html.stripDivSpan contentDiv)))

/-- `PTTScraper.get_ptt_stock_posts(url, num_posts)` after the listing
fetch: `fetched` is the parsed listing page (or `none` when
`_make_request` returned `None`); `fetchPost link` is the parsed post page
for the content fetch of `link`; `exc link` is the exception oracle of the
corresponding `_get_post_content` call.  The source slices the container
list (`soup.find_all('div', class_='r-ent')[:num_posts]`) before
extraction, and `filterMap` models the `if post_info:` skip. -/
def get_ptt_stock_posts (fetched : Option Html) (fetchPost : String → Option Html)
    (exc : String → Bool) (numPosts : Nat) : List ForumPost :=
  match fetched with
  | none => []
  | some doc =>
    (((Html.descendants doc).filter (Html.isDivClass "r-ent")).take numPosts).filterMap
      (fun d =>
        (_extract_post_info d).map (fun info =>
          { title := info.title, link := info.link, author := info.author, date := info.date
          , content := _get_post_content (exc info.link) (fetchPost info.link) }))

/-- The listing containers of a parsed page, in document order
(`soup.find_all('div', class_='r-ent')`). -/
def postContainers (doc : Html) : List Html :=
  (Html.descendants doc).filter (Html.isDivClass "r-ent")

/-- Whether a container would survive extraction: it has a `div.title`
holding a nested link that carries an `href` attribute. -/
def hasTitleLink (d : Html) : Bool :=
  (((Html.findFirst (Html.isDivClass "title") d).bind
      (Html.findFirst (Html.isTag "a"))).bind Html.getHref).isSome

/-- The absolute link a container's entry would get, when it has one. -/
def containerLink (d : Html) : Option String :=
  (((Html.findFirst (Html.isDivClass "title") d).bind
      (Html.findFirst (Html.isTag "a"))).bind Html.getHref).map
    (fun href => "https://www.ptt.cc" ++ href)

/- ===================== Shape predicates for sanitizer output ===================== -/

/-- The first character, if any, is not whitespace. -/
def headNotWS (l : List Char) : Bool := l.head?.all fun c => !isPySpace c

/-- The last character, if any, is not whitespace. -/
def lastNotWS (l : List Char) : Bool := l.getLast?.all fun c => !isPySpace c

/-- No two adjacent characters are both whitespace (every whitespace run
has length one). -/
def noTwoWS : List Char → Bool
  | c :: d :: rest => (!(isPySpace c && isPySpace d)) && noTwoWS (d :: rest)
  | _ => true

/- ===================== Concrete fixtures ===================== -/

/-- A listing page with two `div.r-ent` containers, the first lacking its
title element (a deleted post), the second well-formed. -/
def exDocC3 : Html :=
  .elem "[document]" [] none none (NodeList.ofList
    [ .elem "div" ["r-ent"] none none NodeList.nil
    , .elem "div" ["r-ent"] none none (NodeList.ofList
        [ .elem "div" ["title"] none none (NodeList.ofList
            [ .elem "a" [] none (some "/bbs/Stock/M.1.html")
                (NodeList.ofList [.text "Hi"]) ]) ]) ])

/-- A listing page with two well-formed `div.r-ent` containers. -/
def exDocC1 : Html :=
  .elem "[document]" [] none none (NodeList.ofList
    [ .elem "div" ["r-ent"] none none (NodeList.ofList
        [ .elem "div" ["title"] none none (NodeList.ofList
            [ .elem "a" [] none (some "/bbs/Stock/M.1.html")
                (NodeList.ofList [.text "Hi"]) ])
        , .elem "div" ["author"] none none (NodeList.ofList [.text "alice"])
        , .elem "div" ["date"] none none (NodeList.ofList [.text " 7.04"]) ])
    , .elem "div" ["r-ent"] none none (NodeList.ofList
        [ .elem "div" ["title"] none none (NodeList.ofList
            [ .elem "a" [] none (some "/bbs/Stock/M.2.html")
                (NodeList.ofList [.text "news"]) ]) ]) ])

/-- The record extracted from the first container of `exDocC1` when every
content fetch fails. -/
def postW : ForumPost :=
  { title := "Hi", link := "https://www.ptt.cc/bbs/Stock/M.1.html"
  , author := "alice", date := "7.04", content := "無法獲取文章內容" }

/-- A `main-content` container whose top-level text survives sanitization,
with nested `span`/`div` noise to discard. -/
def exDivC5 : Html :=
  .elem "div" [] (some "main-content") none (NodeList.ofList
    [ .text "  Hello,  world!! "
    , .elem "span" ["f2"] none none (NodeList.ofList [.text "noise"])
    , .elem "div" ["push"] none none (NodeList.ofList [.text "more noise"]) ])

/-- A post page holding `exDivC5`. -/
def exDocC5 : Html :=
  .elem "[document]" [] none none (NodeList.ofList [exDivC5])

/-- A `main-content` container whose top-level text consists only of
characters the sanitizer strips. -/
def exDivC9 : Html :=
  .elem "div" [] (some "main-content") none (NodeList.ofList
    [ .text "@@@ "
    , .elem "span" ["f2"] none none (NodeList.ofList [.text "kept out"]) ])

/-- A post page holding `exDivC9`. -/
def exDocC9 : Html :=
  .elem "[document]" [] none none (NodeList.ofList [exDivC9])

/-- Attempt outcomes where the first attempt fails and every later attempt
succeeds. -/
def outcomeW : Nat → AttemptResult :=
  fun i => if i = 0 then .err else .ok { body := "page" }

/-- A concrete jitter oracle: `random.uniform(1, 3)` returned 2 every time. -/
def jitterW : Nat → ℚ := fun _ => 2

/- ===================== Sanitizer lemmas ===================== -/

/-- Unfolding of `collapseAux` at a whitespace head. -/
theorem collapseAux_cons_ws {a : Char} (ha : isPySpace a = true) (b : Bool) (cs : List Char) :
    collapseAux b (a :: cs)
      = if b then collapseAux true cs else ' ' :: collapseAux true cs := by
  cases b <;> simp [collapseAux, ha]

/-- Unfolding of `collapseAux` at a non-whitespace head. -/
theorem collapseAux_cons_nws {a : Char} (ha : isPySpace a = false) (b : Bool) (cs : List Char) :
    collapseAux b (a :: cs) = a :: collapseAux false cs := by
  cases b <;> simp [collapseAux, ha]

/-- Unfolding equation of `noTwoWS` on two or more characters. -/
theorem noTwoWS_cons_cons (c d : Char) (rest : List Char) :
    noTwoWS (c :: d :: rest) = ((!(isPySpace c && isPySpace d)) && noTwoWS (d :: rest)) := rfl

/-- `noTwoWS` is inherited by tails. -/
theorem noTwoWS_tail {c : Char} {l : List Char} (h : noTwoWS (c :: l) = true) :
    noTwoWS l = true := by
  cases l with
  | nil => rfl
  | cons d rest =>
    rw [noTwoWS_cons_cons] at h
    exact (Bool.and_eq_true_iff.mp h).2

/-- Every character of a collapsed list is either the emitted space or a
non-whitespace character of the input. -/
theorem mem_collapseAux {c : Char} :
    ∀ (l : List Char) (b : Bool), c ∈ collapseAux b l →
      c = ' ' ∨ (c ∈ l ∧ isPySpace c = false) := by
  intro l
  induction l with
  | nil => intro b h; simp [collapseAux] at h
  | cons a cs ih =>
    intro b h
    by_cases ha : isPySpace a = true
    · rw [collapseAux_cons_ws ha] at h
      have h' : c ∈ collapseAux true cs ∨ c = ' ' := by
        cases b with
        | true => exact Or.inl (by simpa using h)
        | false =>
          rcases List.mem_cons.mp (by simpa using h) with h1 | h1
          · exact Or.inr h1
          · exact Or.inl h1
      rcases h' with h' | h'
      · rcases ih true h' with h'' | ⟨hm, hw⟩
        · exact Or.inl h''
        · exact Or.inr ⟨List.mem_cons_of_mem _ hm, hw⟩
      · exact Or.inl h'
    · have ha' : isPySpace a = false := by simpa using ha
      rw [collapseAux_cons_nws ha'] at h
      rcases List.mem_cons.mp h with rfl | h1
      · exact Or.inr ⟨List.mem_cons_self _ _, ha'⟩
      · rcases ih false h1 with h'' | ⟨hm, hw⟩
        · exact Or.inl h''
        · exact Or.inr ⟨List.mem_cons_of_mem _ hm, hw⟩

/-- A collapsed list has no two adjacent whitespace characters, and when the
flag says a space was just emitted the output starts with a non-whitespace
character. -/
theorem collapseAux_shape : ∀ l : List Char,
    (∀ b, noTwoWS (collapseAux b l) = true) ∧ headNotWS (collapseAux true l) = true := by
  intro l
  induction l with
  | nil => exact ⟨fun _ => rfl, rfl⟩
  | cons a cs ih =>
    obtain ⟨ihN, ihH⟩ := ih
    by_cases ha : isPySpace a = true
    · refine ⟨fun b => ?_, ?_⟩
      · rw [collapseAux_cons_ws ha]
        cases b with
        | true => simpa using ihN true
        | false =>
          simp only [Bool.false_eq_true, if_false]
          cases hm : collapseAux true cs with
          | nil => rfl
          | cons d ds =>
            rw [noTwoWS_cons_cons]
            have hd : isPySpace d = false := by
              have h2 := ihH
              rw [hm] at h2
              simpa [headNotWS] using h2
            have h3 : noTwoWS (d :: ds) = true := by rw [← hm]; exact ihN true
            simp [hd, h3]
      · rw [collapseAux_cons_ws ha]
        simpa using ihH
    · have ha' : isPySpace a = false := by simpa using ha
      have key : ∀ b, noTwoWS (collapseAux b (a :: cs)) = true := by
        intro b
        rw [collapseAux_cons_nws ha']
        cases hm : collapseAux false cs with
        | nil => rfl
        | cons d ds =>
          rw [noTwoWS_cons_cons]
          have h3 : noTwoWS (d :: ds) = true := by rw [← hm]; exact ihN false
          simp [ha', h3]
      refine ⟨key, ?_⟩
      rw [collapseAux_cons_nws ha']
      simp [headNotWS, ha']

/-- Dropping leading whitespace keeps a sublist of the characters. -/
theorem mem_dropStartWS {c : Char} : ∀ l : List Char, c ∈ dropStartWS l → c ∈ l := by
  intro l
  induction l with
  | nil => intro h; exact h
  | cons a cs ih =>
    intro h
    by_cases ha : isPySpace a = true
    · simp only [dropStartWS, ha, if_pos] at h
      exact List.mem_cons_of_mem _ (ih h)
    · have ha' : isPySpace a = false := by simpa using ha
      simpa [dropStartWS, ha'] using h

/-- After dropping leading whitespace the head is not whitespace. -/
theorem headNotWS_dropStartWS : ∀ l : List Char, headNotWS (dropStartWS l) = true := by
  intro l
  induction l with
  | nil => rfl
  | cons a cs ih =>
    by_cases ha : isPySpace a = true
    · simpa [dropStartWS, ha] using ih
    · have ha' : isPySpace a = false := by simpa using ha
      simp [dropStartWS, ha', headNotWS]

/-- Dropping leading whitespace is the identity when the head is already
not whitespace. -/
theorem dropStartWS_eq_self {l : List Char} (h : headNotWS l = true) :
    dropStartWS l = l := by
  cases l with
  | nil => rfl
  | cons a cs =>
    have ha : isPySpace a = false := by simpa [headNotWS] using h
    simp [dropStartWS, ha]

/-- Dropping leading whitespace preserves `noTwoWS`. -/
theorem noTwoWS_dropStartWS : ∀ l : List Char, noTwoWS l = true → noTwoWS (dropStartWS l) = true := by
  intro l
  induction l with
  | nil => intro h; exact h
  | cons a cs ih =>
    intro h
    by_cases ha : isPySpace a = true
    · simp only [dropStartWS, ha, if_pos]
      exact ih (noTwoWS_tail h)
    · have ha' : isPySpace a = false := by simpa using ha
      simpa [dropStartWS, ha'] using h

/-- A list of spaces loses everything to the leading-whitespace drop. -/
theorem dropStartWS_all_space : ∀ l : List Char, (∀ c ∈ l, c = ' ') → dropStartWS l = [] := by
  intro l
  induction l with
  | nil => intro _; rfl
  | cons a cs ih =>
    intro h
    have ha : a = ' ' := h a (List.mem_cons_self _ _)
    have : isPySpace a = true := by rw [ha]; rfl
    simp only [dropStartWS, this, if_pos]
    exact ih fun c hc => h c (List.mem_cons_of_mem _ hc)

/-- Dropping trailing whitespace keeps a sublist of the characters. -/
theorem mem_dropEndWS {c : Char} : ∀ l : List Char, c ∈ dropEndWS l → c ∈ l := by
  intro l
  induction l with
  | nil => intro h; exact h
  | cons a cs ih =>
    intro h
    simp only [dropEndWS] at h
    cases hd : dropEndWS cs with
    | nil =>
      rw [hd] at h
      by_cases ha : isPySpace a = true
      · simp [ha] at h
      · have ha' : isPySpace a = false := by simpa using ha
        simp only [ha', Bool.false_eq_true, if_false, List.mem_singleton] at h
        simp [h]
    | cons d ds =>
      rw [hd] at h
      rcases List.mem_cons.mp h with rfl | h1
      · exact List.mem_cons_self _ _
      · exact List.mem_cons_of_mem _ (ih (hd ▸ h1))

/-- Dropping trailing whitespace leaves the list empty or keeps its head. -/
theorem head?_dropEndWS : ∀ l : List Char,
    dropEndWS l = [] ∨ (dropEndWS l).head? = l.head? := by
  intro l
  cases l with
  | nil => exact Or.inl rfl
  | cons a cs =>
    simp only [dropEndWS]
    cases dropEndWS cs with
    | nil =>
      by_cases ha : isPySpace a = true
      · simp [ha]
      · have ha' : isPySpace a = false := by simpa using ha
        simp [ha']
    | cons d ds => exact Or.inr rfl

/-- Dropping trailing whitespace preserves a non-whitespace head. -/
theorem headNotWS_dropEndWS {l : List Char} (h : headNotWS l = true) :
    headNotWS (dropEndWS l) = true := by
  rcases head?_dropEndWS l with h0 | h0
  · rw [h0]; rfl
  · unfold headNotWS at h ⊢
    rw [h0]
    exact h

/-- After dropping trailing whitespace the last character is not whitespace. -/
theorem lastNotWS_dropEndWS : ∀ l : List Char, lastNotWS (dropEndWS l) = true := by
  intro l
  induction l with
  | nil => rfl
  | cons a cs ih =>
    simp only [dropEndWS]
    cases hd : dropEndWS cs with
    | nil =>
      by_cases ha : isPySpace a = true
      · simp [ha]; rfl
      · have ha' : isPySpace a = false := by simpa using ha
        simp [ha', lastNotWS]
    | cons d ds =>
      rw [hd] at ih
      unfold lastNotWS at ih ⊢
      rwa [List.getLast?_cons_cons]

/-- Dropping trailing whitespace is the identity when the last character is
already not whitespace. -/
theorem dropEndWS_eq_self : ∀ l : List Char, lastNotWS l = true → dropEndWS l = l := by
  intro l
  induction l with
  | nil => intro _; rfl
  | cons a cs ih =>
    intro h
    cases cs with
    | nil =>
      have ha : isPySpace a = false := by simpa [lastNotWS] using h
      simp [dropEndWS, ha]
    | cons b bs =>
      have h' : lastNotWS (b :: bs) = true := by
        unfold lastNotWS at h ⊢
        rwa [List.getLast?_cons_cons] at h
      have ihe : dropEndWS (b :: bs) = b :: bs := ih h'
      have step : dropEndWS (a :: b :: bs)
          = match dropEndWS (b :: bs) with
            | [] => if isPySpace a = true then [] else [a]
            | d :: ds => a :: d :: ds := rfl
      rw [step, ihe]

/-- Dropping trailing whitespace preserves `noTwoWS`. -/
theorem noTwoWS_dropEndWS : ∀ l : List Char, noTwoWS l = true → noTwoWS (dropEndWS l) = true := by
  intro l
  induction l with
  | nil => intro h; exact h
  | cons a cs ih =>
    intro h
    simp only [dropEndWS]
    cases hd : dropEndWS cs with
    | nil =>
      by_cases ha : isPySpace a = true
      · simp [ha]; rfl
      · have ha' : isPySpace a = false := by simpa using ha
        simp [ha']; rfl
    | cons d ds =>
      have ih' : noTwoWS (d :: ds) = true := hd ▸ ih (noTwoWS_tail h)
      cases cs with
      | nil => simp [dropEndWS] at hd
      | cons e es =>
        have he : (dropEndWS (e :: es)).head? = (e :: es).head? := by
          rcases head?_dropEndWS (e :: es) with h0 | h0
          · rw [h0] at hd; cases hd
          · exact h0
        have hde : d = e := by
          rw [hd] at he
          simpa using he
        rw [noTwoWS_cons_cons] at h ⊢
        have hpair : (!(isPySpace a && isPySpace e)) = true := (Bool.and_eq_true_iff.mp h).1
        subst hde
        simp [hpair, ih']

/-- Collapsing is the identity on a list whose whitespace is already single
ASCII spaces with no two adjacent. -/
theorem collapseAux_eq_self : ∀ l : List Char,
    (∀ c ∈ l, isPySpace c = true → c = ' ') → noTwoWS l = true →
    (collapseAux false l = l ∧ (headNotWS l = true → collapseAux true l = l)) := by
  intro l
  induction l with
  | nil => exact fun _ _ => ⟨rfl, fun _ => rfl⟩
  | cons a cs ih =>
    intro hws hnt
    have hws' : ∀ c ∈ cs, isPySpace c = true → c = ' ' :=
      fun c hc => hws c (List.mem_cons_of_mem _ hc)
    have hnt' : noTwoWS cs = true := noTwoWS_tail hnt
    obtain ⟨ih1, ih2⟩ := ih hws' hnt'
    by_cases ha : isPySpace a = true
    · have ha' : a = ' ' := hws a (List.mem_cons_self _ _) ha
      have hhead : headNotWS cs = true := by
        cases cs with
        | nil => rfl
        | cons d ds =>
          rw [noTwoWS_cons_cons] at hnt
          have := (Bool.and_eq_true_iff.mp hnt).1
          rw [ha] at this
          unfold headNotWS
          simpa using this
      constructor
      · rw [collapseAux_cons_ws ha]
        simp only [Bool.false_eq_true, if_false]
        rw [ih2 hhead, ha']
      · intro hh
        rw [headNotWS] at hh
        simp [ha] at hh
    · have ha' : isPySpace a = false := by simpa using ha
      exact ⟨by rw [collapseAux_cons_nws ha', ih1],
             fun _ => by rw [collapseAux_cons_nws ha', ih1]⟩

/-- Characters of the sanitizer's output all come from the collapsed,
filtered list. -/
theorem mem_cleanTextL {c : Char} {l : List Char} (h : c ∈ cleanTextL l) :
    c ∈ (collapseWS l).filter allowedChar :=
  mem_dropStartWS _ (mem_dropEndWS _ h)

/-- Every character of the sanitizer's output is in the allow-list. -/
theorem allowed_of_mem_cleanTextL {c : Char} {l : List Char} (h : c ∈ cleanTextL l) :
    allowedChar c = true :=
  (List.mem_filter.mp (mem_cleanTextL h)).2

/-- Every whitespace character of the sanitizer's output is the ASCII
space. -/
theorem space_of_mem_cleanTextL {c : Char} {l : List Char} (h : c ∈ cleanTextL l)
    (hws : isPySpace c = true) : c = ' ' := by
  have hc : c ∈ collapseWS l := (List.mem_filter.mp (mem_cleanTextL h)).1
  rcases mem_collapseAux _ _ hc with h' | ⟨_, hnw⟩
  · exact h'
  · rw [hws] at hnw; cases hnw

/-- The sanitizer's output never starts with whitespace. -/
theorem headNotWS_cleanTextL (l : List Char) : headNotWS (cleanTextL l) = true :=
  headNotWS_dropEndWS (headNotWS_dropStartWS _)

/-- The sanitizer's output never ends with whitespace. -/
theorem lastNotWS_cleanTextL (l : List Char) : lastNotWS (cleanTextL l) = true :=
  lastNotWS_dropEndWS _

/-- On input whose characters are all allowed, the removal pass of the
sanitizer removes nothing from the collapsed list. -/
theorem filter_collapse_of_allowed {l : List Char} (h : ∀ c ∈ l, allowedChar c = true) :
    (collapseWS l).filter allowedChar = collapseWS l := by
  rw [List.filter_eq_self]
  intro c hc
  rcases mem_collapseAux _ _ hc with rfl | ⟨hm, _⟩
  · rfl
  · exact h c hm

/-- On input whose characters are all allowed, the sanitizer's output has
no two adjacent whitespace characters. -/
theorem noTwoWS_cleanTextL_of_allowed {l : List Char} (h : ∀ c ∈ l, allowedChar c = true) :
    noTwoWS (cleanTextL l) = true := by
  unfold cleanTextL pyStrip
  rw [filter_collapse_of_allowed h]
  exact noTwoWS_dropEndWS _ (noTwoWS_dropStartWS _ ((collapseAux_shape l).1 false))

/-- The sanitizer fixes any list that is already in its normal form: all
characters allowed, all whitespace single ASCII spaces, no whitespace at
either end. -/
theorem cleanTextL_fixpoint {l : List Char}
    (hall : ∀ c ∈ l, allowedChar c = true)
    (hsp : ∀ c ∈ l, isPySpace c = true → c = ' ')
    (hnt : noTwoWS l = true) (hh : headNotWS l = true) (hl : lastNotWS l = true) :
    cleanTextL l = l := by
  unfold cleanTextL pyStrip collapseWS
  rw [(collapseAux_eq_self l hsp hnt).1, List.filter_eq_self.mpr hall,
      dropStartWS_eq_self hh, dropEndWS_eq_self _ hl]

/-- From the second application onward the sanitizer is idempotent. -/
theorem cleanTextL_idem2 (l : List Char) :
    cleanTextL (cleanTextL (cleanTextL l)) = cleanTextL (cleanTextL l) := by
  apply cleanTextL_fixpoint
  · exact fun c hc => allowed_of_mem_cleanTextL hc
  · exact fun c hc => space_of_mem_cleanTextL hc
  · exact noTwoWS_cleanTextL_of_allowed fun c hc => allowed_of_mem_cleanTextL hc
  · exact headNotWS_cleanTextL _
  · exact lastNotWS_cleanTextL _

/-- When every input character is whitespace or disallowed, the sanitizer
returns the empty list. -/
theorem cleanTextL_eq_nil {l : List Char}
    (h : ∀ c ∈ l, isPySpace c = true ∨ allowedChar c = false) :
    cleanTextL l = [] := by
  unfold cleanTextL pyStrip
  have hall : ∀ c ∈ (collapseWS l).filter allowedChar, c = ' ' := by
    intro c hc
    obtain ⟨hc1, hc2⟩ := List.mem_filter.mp hc
    rcases mem_collapseAux _ _ hc1 with rfl | ⟨hm, hnw⟩
    · rfl
    · rcases h c hm with hws | hna
      · rw [hws] at hnw; cases hnw
      · rw [hna] at hc2; cases hc2
  rw [dropStartWS_all_space _ hall]
  rfl

/- ===================== Sanitizer claims ===================== -/

/-- C2 (counterexample): `_clean_text` is not idempotent.  On `"a @ b"` the
whitespace-collapse pass runs before character removal, so deleting the
disallowed `@` leaves the two spaces around it adjacent: one application
yields `"a  b"`, a second application yields `"a b"`. -/
theorem clean_text_not_idempotent :
    _clean_text (_clean_text "a @ b") ≠ _clean_text "a @ b" := by decide

/-- C2 (amended): the sanitizer is idempotent from the second application
onward — `_clean_text (_clean_text x)` is a fixed point of `_clean_text`
for every `x`, while a single application need not be. -/
theorem clean_text_idempotent_from_second (s : String) :
    _clean_text (_clean_text (_clean_text s)) = _clean_text (_clean_text s) :=
  congrArg String.mk (cleanTextL_idem2 s.data)

/-- C7 (counterexample): the sanitizer's output can contain a run of two
consecutive whitespace characters: `_clean_text "a @ b" = "a  b"`, whose
two adjacent spaces falsify the no-two-adjacent-whitespace property. -/
theorem clean_text_double_space :
    _clean_text "a @ b" = "a  b" ∧ noTwoWS (_clean_text "a @ b").data = false := by
  decide

/-- C7 (amended): every whitespace character of the sanitizer's output is a
single ASCII space character, and the output has no leading and no trailing
whitespace; runs of two or more spaces may however remain (see the
counterexample). -/
theorem clean_text_ws_shape (s : String) :
    ((_clean_text s).data.all fun c => !isPySpace c || c == ' ') = true ∧
    headNotWS (_clean_text s).data = true ∧
    lastNotWS (_clean_text s).data = true := by
  have hd : (_clean_text s).data = cleanTextL s.data := rfl
  rw [hd]
  refine ⟨?_, headNotWS_cleanTextL _, lastNotWS_cleanTextL _⟩
  rw [List.all_eq_true]
  intro c hc
  by_cases hws : isPySpace c = true
  · have hsp : c = ' ' := space_of_mem_cleanTextL hc hws
    simp [hsp]
  · have hws' : isPySpace c = false := by simpa using hws
    simp [hws']

/-- C8: every character of the sanitizer's output is in the allow-list of
`_clean_text`'s removal pass: a word character, whitespace, a CJK-range
character, or one of the allowed punctuation marks and their full-width
equivalents; anything else from the input has been removed. -/
theorem clean_text_allowlist (s : String) :
    ((_clean_text s).data.all allowedChar) = true := by
  have hd : (_clean_text s).data = cleanTextL s.data := rfl
  rw [hd, List.all_eq_true]
  exact fun c hc => allowed_of_mem_cleanTextL hc

/- ===================== Fetcher lemmas and claims ===================== -/

/-- The retry loop makes at most as many GET attempts as it has iterations
left. -/
theorem makeRequestAux_attempts_le (retryDelay : ℚ) (url : String)
    (outcome : Nat → AttemptResult) (jitter : Nat → ℚ) :
    ∀ (n i : Nat), attemptCount (makeRequestAux retryDelay url outcome jitter i n).2 ≤ n := by
  intro n
  induction n with
  | zero => intro i; simp [makeRequestAux, attemptCount]
  | succ k ih =>
    intro i
    unfold makeRequestAux
    cases outcome i with
    | ok r => simp [attemptCount, List.countP_cons]
    | err =>
      by_cases hk : k = 0
      · subst hk
        simp [attemptCount, List.countP_cons]
      · have hrec := ih (i + 1)
        simp only [attemptCount] at hrec ⊢
        simp [if_neg hk, List.countP_cons]
        omega

/-- If the first `j` attempts starting at `i` fail and attempt `i + j`
succeeds within the remaining budget, the loop returns that response after
exactly the failed attempts, each followed by its jittered sleep. -/
theorem makeRequestAux_first_success (retryDelay : ℚ) (url : String)
    (outcome : Nat → AttemptResult) (jitter : Nat → ℚ) :
    ∀ (j i n : Nat) (r : Response), j < n →
      (∀ t, t < j → outcome (i + t) = .err) → outcome (i + j) = .ok r →
      makeRequestAux retryDelay url outcome jitter i n
        = (some r, sleepyTrace retryDelay url jitter i j ++ [.get url (i + j)]) := by
  intro j
  induction j with
  | zero =>
    intro i n r hn hfail hok
    obtain ⟨m, rfl⟩ : ∃ m, n = m + 1 := ⟨n - 1, by omega⟩
    rw [Nat.add_zero] at hok
    unfold makeRequestAux
    rw [hok]
    simp [sleepyTrace]
  | succ k ih =>
    intro i n r hn hfail hok
    obtain ⟨m, rfl⟩ : ∃ m, n = m + 1 := ⟨n - 1, by omega⟩
    have h0 : outcome i = .err := by
      have := hfail 0 (by omega)
      simpa using this
    have hm : k < m := by omega
    have hm0 : m ≠ 0 := by omega
    unfold makeRequestAux
    rw [h0]
    have hrest := ih (i + 1) m r hm
      (fun t ht => by
        have := hfail (t + 1) (by omega)
        rw [show i + 1 + t = i + (t + 1) by omega]
        exact this)
      (by rw [show i + 1 + k = i + (k + 1) by omega]; exact hok)
    simp only [hrest, if_neg hm0]
    rw [show i + 1 + k = i + (k + 1) by omega]
    simp [sleepyTrace]

/-- If every attempt in the remaining budget fails, the loop returns the
sentinel; with `k + 1` iterations the trace is `k` failed attempts each
followed by a sleep, then a final failed attempt with no sleep after it. -/
theorem makeRequestAux_all_fail (retryDelay : ℚ) (url : String)
    (outcome : Nat → AttemptResult) (jitter : Nat → ℚ) :
    ∀ (k i : Nat), (∀ t, t < k + 1 → outcome (i + t) = .err) →
      makeRequestAux retryDelay url outcome jitter i (k + 1)
        = (none, sleepyTrace retryDelay url jitter i k ++ [.get url (i + k)]) := by
  intro k
  induction k with
  | zero =>
    intro i hfail
    have h0 : outcome i = .err := by simpa using hfail 0 (by omega)
    unfold makeRequestAux
    rw [h0]
    simp [makeRequestAux, sleepyTrace]
  | succ m ih =>
    intro i hfail
    have h0 : outcome i = .err := by simpa using hfail 0 (by omega)
    have hrest := ih (i + 1) (fun t ht => by
      have := hfail (t + 1) (by omega)
      rw [show i + 1 + t = i + (t + 1) by omega]
      exact this)
    unfold makeRequestAux
    rw [h0]
    simp only [hrest, if_neg (Nat.succ_ne_zero m)]
    rw [show i + 1 + m = i + (m + 1) by omega]
    simp [sleepyTrace]

/-- C4: `_make_request` makes at most `max_retries` GET attempts; when the
first `i` attempts fail and attempt `i` succeeds within the budget it
returns that response immediately, with a sleep of
`retry_delay + random.uniform(1, 3)` seconds recorded after each failed
attempt and no further attempts after the success; when all attempts fail
it returns the sentinel `none`, with a sleep after every failed attempt
except the final one (the trace `sleepyTrace ... k ++ [get url k]` ends in
a GET with no sleep). -/
theorem make_request_spec (maxRetries : Nat) (retryDelay : ℚ) (url : String)
    (outcome : Nat → AttemptResult) (jitter : Nat → ℚ) :
    attemptCount (_make_request maxRetries retryDelay url outcome jitter).2 ≤ maxRetries ∧
    (∀ i r, i < maxRetries → (∀ j, j < i → outcome j = .err) → outcome i = .ok r →
      _make_request maxRetries retryDelay url outcome jitter
        = (some r, sleepyTrace retryDelay url jitter 0 i ++ [.get url i])) ∧
    ((∀ i, i < maxRetries → outcome i = .err) →
      ((_make_request maxRetries retryDelay url outcome jitter).1 = none ∧
       ∀ k, maxRetries = k + 1 →
         _make_request maxRetries retryDelay url outcome jitter
           = (none, sleepyTrace retryDelay url jitter 0 k ++ [.get url k]))) := by
  refine ⟨makeRequestAux_attempts_le retryDelay url outcome jitter maxRetries 0, ?_, ?_⟩
  · intro i r hi hfail hok
    have := makeRequestAux_first_success retryDelay url outcome jitter i 0 maxRetries r hi
      (fun t ht => by simpa using hfail t ht) (by simpa using hok)
    simpa [_make_request] using this
  · intro hfail
    constructor
    · cases maxRetries with
      | zero => rfl
      | succ k =>
        have := makeRequestAux_all_fail retryDelay url outcome jitter k 0
          (fun t ht => by simpa using hfail t ht)
        simp [_make_request, this]
    · intro k hk
      subst hk
      have := makeRequestAux_all_fail retryDelay url outcome jitter k 0
        (fun t ht => by simpa using hfail t ht)
      simpa [_make_request] using this

/-- C4 (witness): with `max_retries = 3`, `retry_delay = 5`, a first
attempt that fails and a second that succeeds, and jitter 2, the fetcher
returns the second attempt's response after the trace
GET, sleep (5 + 2), GET. -/
theorem make_request_spec_witness :
    _make_request 3 5 "https://www.ptt.cc/bbs/Stock/index.html" outcomeW jitterW
      = (some { body := "page" },
         [.get "https://www.ptt.cc/bbs/Stock/index.html" 0,
          .sleep (5 + 2),
          .get "https://www.ptt.cc/bbs/Stock/index.html" 1]) :=
  (make_request_spec 3 5 "https://www.ptt.cc/bbs/Stock/index.html" outcomeW jitterW).2.1
    1 { body := "page" } (by decide) (by decide) rfl

/-- C10: with `max_retries = 0` the retry loop body never runs:
`_make_request` returns the sentinel `none` with an empty trace — no HTTP
attempt and no sleep — for every url, outcome and jitter. -/
theorem make_request_zero_retries (retryDelay : ℚ) (url : String)
    (outcome : Nat → AttemptResult) (jitter : Nat → ℚ) :
    _make_request 0 retryDelay url outcome jitter = (none, []) := rfl

/- ===================== Scraper lemmas and claims ===================== -/

/-- The length of a `filterMap` counts the elements mapped to `some`. -/
theorem length_filterMap_countP {α β : Type} (f : α → Option β) :
    ∀ l : List α, (l.filterMap f).length = l.countP fun a => (f a).isSome := by
  intro l
  induction l with
  | nil => rfl
  | cons a as ih =>
    cases hf : f a with
    | none => simp [List.filterMap_cons, hf, List.countP_cons, ih]
    | some b => simp [List.filterMap_cons, hf, List.countP_cons, ih]

/-- Elements counted by a predicate and by its negation partition a list. -/
theorem countP_add_countP_not {α : Type} (p : α → Bool) :
    ∀ l : List α, l.countP p + l.countP (fun a => !(p a)) = l.length := by
  intro l
  induction l with
  | nil => rfl
  | cons a as ih =>
    by_cases hp : p a = true
    · simp [List.countP_cons, hp]
      omega
    · have hp' : p a = false := by simpa using hp
      simp [List.countP_cons, hp']
      omega

/-- `_extract_post_info` produces a record exactly when the container has a
title element with a nested link carrying an `href` attribute. -/
theorem extract_post_info_isSome (d : Html) :
    (_extract_post_info d).isSome = hasTitleLink d := by
  unfold _extract_post_info hasTitleLink
  cases h1 : Html.findFirst (Html.isDivClass "title") d with
  | none => simp [h1]
  | some titleTag =>
    cases h2 : Html.findFirst (Html.isTag "a") titleTag with
    | none => simp [h1, h2]
    | some anchor =>
      cases h3 : anchor.getHref with
      | none => simp [h1, h2, h3]
      | some href => simp [h1, h2, h3]

/-- The link field of an extracted record is the container's resolved
absolute link. -/
theorem extract_post_info_link (d : Html) :
    (_extract_post_info d).map (fun info => info.link) = containerLink d := by
  unfold _extract_post_info containerLink
  cases h1 : Html.findFirst (Html.isDivClass "title") d with
  | none => simp [h1]
  | some titleTag =>
    cases h2 : Html.findFirst (Html.isTag "a") titleTag with
    | none => simp [h1, h2]
    | some anchor =>
      cases h3 : anchor.getHref with
      | none => simp [h1, h2, h3]
      | some href => simp [h1, h2, h3]

/-- C1: for every count and every fetched listing page (and any outcome of
the per-post content fetches), `get_ptt_stock_posts` returns at most
`count` entries, and every returned entry is a complete `ForumPost` record
whose four summary fields come from a successful `_extract_post_info` and
whose content field was filled in by `_get_post_content` — all five fields
are total strings by construction. -/
theorem get_ptt_stock_posts_spec (fetched : Option Html) (fetchPost : String → Option Html)
    (exc : String → Bool) (numPosts : Nat) :
    (get_ptt_stock_posts fetched fetchPost exc numPosts).length ≤ numPosts ∧
    ∀ p ∈ get_ptt_stock_posts fetched fetchPost exc numPosts,
      ∃ info d, _extract_post_info d = some info ∧
        p = { title := info.title, link := info.link, author := info.author, date := info.date
            , content := _get_post_content (exc info.link) (fetchPost info.link) } := by
  cases fetched with
  | none =>
    refine ⟨by simp [get_ptt_stock_posts], ?_⟩
    intro p hp
    simp [get_ptt_stock_posts] at hp
  | some doc =>
    constructor
    · calc (get_ptt_stock_posts (some doc) fetchPost exc numPosts).length
          ≤ (((Html.descendants doc).filter (Html.isDivClass "r-ent")).take numPosts).length :=
            List.length_filterMap_le _ _
        _ ≤ numPosts := List.length_take_le _ _
    · intro p hp
      simp only [get_ptt_stock_posts] at hp
      obtain ⟨d, _, hmap⟩ := List.mem_filterMap.mp hp
      obtain ⟨info, hinfo, hp'⟩ := Option.map_eq_some'.mp hmap
      exact ⟨info, d, hinfo, hp'.symm⟩

/-- C1 (witness): on a concrete listing page with two well-formed entries
and failing content fetches, the bound and the field characterization hold
of the first returned record. -/
theorem get_ptt_stock_posts_spec_witness :
    (get_ptt_stock_posts (some exDocC1) (fun _ => none) (fun _ => false) 5).length ≤ 5 ∧
    ∃ info d, _extract_post_info d = some info ∧
      postW = { title := info.title, link := info.link, author := info.author, date := info.date
              , content := _get_post_content false none } :=
  ⟨(get_ptt_stock_posts_spec (some exDocC1) (fun _ => none) (fun _ => false) 5).1,
   (get_ptt_stock_posts_spec (some exDocC1) (fun _ => none) (fun _ => false) 5).2 postW (by decide)⟩

/-- C3 (counterexample): the source slices the container list to the first
`count` entries before discarding title-less containers, so a listing page
with `N = 2` containers of which the first lacks its title (`K = 1`) and
`count = 1` yields 0 entries, not `min(count, N - K) = 1`. -/
theorem get_ptt_stock_posts_count_cex :
    (get_ptt_stock_posts (some exDocC3) (fun _ => none) (fun _ => false) 1).length
      ≠ min 1 ((postContainers exDocC3).length
          - ((postContainers exDocC3).filter fun d => !(hasTitleLink d)).length) := by
  decide

/-- C3 (amended): `get_ptt_stock_posts` first takes the first
`min(count, N)` containers and then excludes the title-less ones among
those: it returns exactly `min(count, N) - K'` entries where `K'` counts
the containers among the first `count` lacking a title element with a
nested `href`-carrying link, and the returned entries keep document order
(their links are the surviving containers' resolved links in order). -/
theorem get_ptt_stock_posts_count (doc : Html) (fetchPost : String → Option Html)
    (exc : String → Bool) (count : Nat) :
    (get_ptt_stock_posts (some doc) fetchPost exc count).length
      = min count (postContainers doc).length
        - (((postContainers doc).take count).filter fun d => !(hasTitleLink d)).length ∧
    (get_ptt_stock_posts (some doc) fetchPost exc count).map (fun p => p.link)
      = ((postContainers doc).take count).filterMap containerLink := by
  constructor
  · have h1 : (get_ptt_stock_posts (some doc) fetchPost exc count).length
        = ((postContainers doc).take count).countP fun d => hasTitleLink d := by
      simp only [get_ptt_stock_posts, postContainers]
      rw [length_filterMap_countP]
      have hfun : (fun d : Html =>
          ((_extract_post_info d).map (fun info =>
            ({ title := info.title, link := info.link, author := info.author, date := info.date
             , content := _get_post_content (exc info.link) (fetchPost info.link) } : ForumPost))).isSome)
          = fun d => hasTitleLink d := by
        funext d
        rw [Option.isSome_map', extract_post_info_isSome]
      rw [hfun]
    have h2 := countP_add_countP_not (fun d => hasTitleLink d) ((postContainers doc).take count)
    have h3 : ((postContainers doc).take count).length
        = min count (postContainers doc).length := List.length_take _ _
    have h4 : (((postContainers doc).take count).filter fun d => !(hasTitleLink d)).length
        = ((postContainers doc).take count).countP fun d => !(hasTitleLink d) :=
      (List.countP_eq_length_filter _ _).symm
    rw [h1, h4, ← h3]
    omega
  · simp only [get_ptt_stock_posts, postContainers]
    rw [List.map_filterMap]
    congr 1
    funext d
    rw [← extract_post_info_link d]
    cases _extract_post_info d with
    | none => rfl
    | some info => rfl

/-- C6: when the listing-page fetch has failed for all retry attempts
(`_make_request` returned its sentinel), `get_ptt_stock_posts` returns the
empty sequence — `if not response: return []` — raising nothing. -/
theorem get_ptt_stock_posts_fetch_failed (fetchPost : String → Option Html)
    (exc : String → Bool) (numPosts : Nat) :
    get_ptt_stock_posts none fetchPost exc numPosts = [] := rfl

/-- C5: `_get_post_content` is total and returns a string on every path:
the fixed error placeholder whenever the `try` body raises, the fixed
"content unavailable" placeholder when the page fetch failed, the fixed
"container not found" placeholder when no element has id `main-content`,
and otherwise the sanitized top-level text of the container with its
`div`/`span` descendants removed. -/
theorem get_post_content_spec (fetched : Option Html) :
    _get_post_content true fetched = "獲取文章內容時發生錯誤" ∧
    _get_post_content false none = "無法獲取文章內容" ∧
    (∀ doc, fetched = some doc →
      Html.findFirst (Html.hasIdAttr "main-content") doc = none →
      _get_post_content false fetched = "無法找到文章內容") ∧
    (∀ doc contentDiv, fetched = some doc →
      Html.findFirst (Html.hasIdAttr "main-content") doc = some contentDiv →
      _get_post_content false fetched
        = _clean_text (pyStripString (Html.textContent (Html.stripDivSpan contentDiv)))) := by
  refine ⟨rfl, rfl, ?_, ?_⟩
  · rintro doc rfl hfind
    simp [_get_post_content, hfind]
  · rintro doc contentDiv rfl hfind
    simp [_get_post_content, hfind]

/-- C5 (witness): on a concrete post page whose `main-content` container
holds top-level text plus `span`/`div` noise, the extractor returns the
sanitized top-level text. -/
theorem get_post_content_spec_witness :
    _get_post_content false (some exDocC5) = "Hello, world!!" :=
  ((get_post_content_spec (some exDocC5)).2.2.2 exDocC5 exDivC5 rfl rfl).trans (by decide)

/-- C9: when the post-page fetch succeeded and the `main-content` container
was found, but the container's top-level text (after removing nested `div`
and `span` elements) consists only of characters the sanitizer strips
(whitespace or disallowed), `_get_post_content` returns the empty string
rather than a placeholder. -/
theorem get_post_content_can_be_empty (doc contentDiv : Html)
    (hfind : Html.findFirst (Html.hasIdAttr "main-content") doc = some contentDiv)
    (hchars : ∀ c ∈ (Html.textContent (Html.stripDivSpan contentDiv)).data,
        isPySpace c = true ∨ allowedChar c = false) :
    _get_post_content false (some doc) = "" := by
  have h1 : _get_post_content false (some doc)
      = _clean_text (pyStripString (Html.textContent (Html.stripDivSpan contentDiv))) := by
    simp [_get_post_content, hfind]
  rw [h1]
  have h2 : cleanTextL (pyStrip (Html.textContent (Html.stripDivSpan contentDiv)).data) = [] :=
    cleanTextL_eq_nil fun c hc =>
      hchars c (mem_dropStartWS _ (mem_dropEndWS _ hc))
  exact congrArg String.mk h2

/-- C9 (witness): a concrete page whose container's top-level text is
`"@@@ "` (all of it stripped by the sanitizer) yields content `""`. -/
theorem get_post_content_can_be_empty_witness :
    _get_post_content false (some exDocC9) = "" :=
  get_post_content_can_be_empty exDocC9 exDivC9 rfl (by decide)
